import Mathlib

/-!
Shallow embedding of the MSI PCI capability emulation from `pci/src/msi.rs`
of the cloud-hypervisor repository, together with proofs of the spec's
claims about it.

The register block `MsiCap` and its guest-write mutation `MsiCap.update`
are translated field by field from the Rust source; 16/32-bit machine
integers become `Nat` with explicit masking where the source truncates.
`MsiConfig.update` is the routing-table transition of `MsiConfig::update`:
the shared `HashMap<u32, kvm_irq_routing_entry>` becomes a function map
`GsiTable`, and the hypervisor `enable`/`disable` calls performed during
one update are recorded as lists of the GSIs they were invoked on.
-/

namespace Msi

/-- MSI control masks (the Rust constants of the same names). -/
def MSI_CTL_ENABLE : Nat := 0x1

def MSI_CTL_MULTI_MSG_ENABLE : Nat := 0x70

def MSI_CTL_64_BITS : Nat := 0x80

def MSI_CTL_PER_VECTOR : Nat := 0x100

def MSI_MSG_CTL_OFFSET : Nat := 0x2

def MSI_MSG_ADDR_LO_OFFSET : Nat := 0x4

def MSI_MSG_ADDR_LO_MASK : Nat := 0xfffffffc

/-- The KVM routing-entry type tag for MSI routes (`KVM_IRQ_ROUTING_MSI`). -/
def KVM_IRQ_ROUTING_MSI : Nat := 2

/-- The MSI capability register block (struct `MsiCap`).  Every field is a
machine integer in the source (`u16`/`u32`); here each is a `Nat` that the
operations keep inside the corresponding range. -/
structure MsiCap where
  msg_ctl : Nat
  msg_addr_lo : Nat
  msg_addr_hi : Nat
  msg_data : Nat
  mask_bits : Nat
  pending_bits : Nat
deriving DecidableEq, Repr

/-- Construction-time block, `MsiCap { msg_ctl, ..Default::default() }`: the
register block, all fields other than `msg_ctl` zero. -/
def MsiCap.mkDefault (msg_ctl : Nat) : MsiCap :=
  { msg_ctl := msg_ctl, msg_addr_lo := 0, msg_addr_hi := 0, msg_data := 0,
    mask_bits := 0, pending_bits := 0 }

/-- Source query `MsiCap::addr_64_bits`. -/
def MsiCap.addr_64_bits (c : MsiCap) : Bool :=
  c.msg_ctl &&& MSI_CTL_64_BITS == MSI_CTL_64_BITS

/-- Source query `MsiCap::per_vector_mask`. -/
def MsiCap.per_vector_mask (c : MsiCap) : Bool :=
  c.msg_ctl &&& MSI_CTL_PER_VECTOR == MSI_CTL_PER_VECTOR

/-- Source query `MsiCap::enabled`. -/
def MsiCap.enabled (c : MsiCap) : Bool :=
  c.msg_ctl &&& MSI_CTL_ENABLE == MSI_CTL_ENABLE

/-- Source query `MsiCap::num_enabled_vectors`. -/
def MsiCap.num_enabled_vectors (c : MsiCap) : Nat :=
  let field := (c.msg_ctl >>> 4) &&& 0x7
  if field > 5 then 0 else 1 <<< field

/-- Source query `MsiCap::vector_masked`. -/
def MsiCap.vector_masked (c : MsiCap) (vector : Nat) : Bool :=
  if !c.per_vector_mask then false
  else (c.mask_bits >>> vector) &&& 0x1 == 0x1

/-- Source query `MsiCap::size`. -/
def MsiCap.size (c : MsiCap) : Nat :=
  let size := 0xa
  let size := if c.addr_64_bits then size + 0x4 else size
  let size := if c.per_vector_mask then size + 0xa else size
  size

/-- Little-endian `read_u16` on a 2-byte slice. -/
def read_u16 (a b : Nat) : Nat := a ||| (b <<< 8)

/-- Little-endian `read_u32` on a 4-byte slice. -/
def read_u32 (a b c d : Nat) : Nat := a ||| (b <<< 8) ||| (c <<< 16) ||| (d <<< 24)

/-- Source mutation `MsiCap::update`: apply a guest configuration write of `data` at
capability-relative `offset`.  A write whose length is not 2 or 4, or whose
offset matches no register of the current layout, only logs an error in the
source and leaves the block unchanged. -/
def MsiCap.update (cap : MsiCap) (offset : Nat) (data : List Nat) : MsiCap :=
  let msg_data_offset : Nat := if cap.addr_64_bits then 0xc else 0x8
  let addr_hi_offset : Option Nat := if cap.addr_64_bits then some 0x8 else none
  let mask_bits_offset : Option Nat :=
    if cap.addr_64_bits then
      if cap.per_vector_mask then some 0x10 else none
    else
      if cap.per_vector_mask then some 0xc else none
  match data with
  | [a, b] =>
    let value := read_u16 a b
    if offset = MSI_MSG_CTL_OFFSET then
      { cap with msg_ctl :=
          (cap.msg_ctl &&& (0xffff ^^^ (MSI_CTL_ENABLE ||| MSI_CTL_MULTI_MSG_ENABLE)))
            ||| (value &&& (MSI_CTL_ENABLE ||| MSI_CTL_MULTI_MSG_ENABLE)) }
    else if offset = msg_data_offset then
      { cap with msg_data := value }
    else
      cap
  | [a, b, c, d] =>
    let value := read_u32 a b c d
    if offset = 0x0 then
      { cap with msg_ctl :=
          (cap.msg_ctl &&& (0xffff ^^^ (MSI_CTL_ENABLE ||| MSI_CTL_MULTI_MSG_ENABLE)))
            ||| (((value >>> 16) &&& 0xffff) &&& (MSI_CTL_ENABLE ||| MSI_CTL_MULTI_MSG_ENABLE)) }
    else if offset = MSI_MSG_ADDR_LO_OFFSET then
      { cap with msg_addr_lo := value &&& MSI_MSG_ADDR_LO_MASK }
    else if offset = msg_data_offset then
      { cap with msg_data := value &&& 0xffff }
    else if addr_hi_offset = some offset then
      { cap with msg_addr_hi := value }
    else if mask_bits_offset = some offset then
      { cap with mask_bits := value }
    else
      cap
  | _ => cap

/-- A sequence of guest writes applied in order (each element is an
`(offset, data)` pair handed to `MsiCap.update`). -/
def applyWrites (c : MsiCap) (ws : List (Nat × List Nat)) : MsiCap :=
  ws.foldl (fun acc w => acc.update w.1 w.2) c

/-- Whether a write of `len` bytes at `offset` hits a recognized register of
`cap`'s current layout — the complement of the `error!("invalid ...")` arms
of `MsiCap::update`. -/
def validAccess (cap : MsiCap) (offset : Nat) (len : Nat) : Bool :=
  let msg_data_offset : Nat := if cap.addr_64_bits then 0xc else 0x8
  match len with
  | 2 => offset == MSI_MSG_CTL_OFFSET || offset == msg_data_offset
  | 4 =>
    offset == 0x0 || offset == MSI_MSG_ADDR_LO_OFFSET || offset == msg_data_offset
      || (cap.addr_64_bits && offset == 0x8)
      || (cap.per_vector_mask && offset == (if cap.addr_64_bits then 0x10 else 0xc))
  | _ => false

/-- One `kvm_irq_routing_entry` as filled in by `MsiConfig::update`. -/
structure RoutingEntry where
  gsi : Nat
  type_ : Nat
  address_lo : Nat
  address_hi : Nat
  data : Nat
deriving DecidableEq, Repr

/-- The shared GSI → routing-entry table (`HashMap<u32, kvm_irq_routing_entry>`),
modelled as a function map. -/
abbrev GsiTable := Nat → Option RoutingEntry

/-- Map update mirroring `HashMap::insert`. -/
def tableInsert (t : GsiTable) (k : Nat) (v : RoutingEntry) : GsiTable :=
  fun g => if g = k then some v else t g

/-- Map update mirroring `HashMap::remove`. -/
def tableRemove (t : GsiTable) (k : Nat) : GsiTable :=
  fun g => if g = k then none else t g

/-- The routing entry built for vector index `idx` of a device whose
register block is `cap` and whose route owns `gsi`. -/
def routeEntry (cap : MsiCap) (gsi : Nat) (idx : Nat) : RoutingEntry :=
  { gsi := gsi, type_ := KVM_IRQ_ROUTING_MSI,
    address_lo := cap.msg_addr_lo, address_hi := cap.msg_addr_hi,
    data := cap.msg_data ||| idx }

/-- The enabled-branch loop of `MsiConfig::update`: walk the owned routes in
order with their vector indices, skipping masked vectors and inserting a
fresh entry for each unmasked one. -/
def installRoutes (cap : MsiCap) (routes : List Nat) (idx : Nat) (t : GsiTable) : GsiTable :=
  match routes with
  | [] => t
  | gsi :: rest =>
    let next := if cap.vector_masked idx then t else tableInsert t gsi (routeEntry cap gsi idx)
    installRoutes cap rest (idx + 1) next

/-- The disabled-branch loop of `MsiConfig::update`: remove every owned
route's GSI from the table. -/
def removeRoutes (routes : List Nat) (t : GsiTable) : GsiTable :=
  match routes with
  | [] => t
  | gsi :: rest => removeRoutes rest (tableRemove t gsi)

/-- An `MsiConfig`: the register block plus the device's owned routes.  An
`InterruptRoute` is represented by its GSI number, the only datum of it the
routing-table logic reads. -/
structure MsiConfig where
  cap : MsiCap
  irq_routes : List Nat
deriving DecidableEq, Repr

/-- The outcome of one `MsiConfig::update` call: the new device state, the
new shared table, and the GSIs on which the hypervisor `enable` resp.
`disable` operations were invoked during the call. -/
structure UpdateResult where
  cfg : MsiConfig
  table : GsiTable
  enableCalls : List Nat
  disableCalls : List Nat

/-- Source transition `MsiConfig::update`: apply the guest write to the register block, then
reconcile the shared routing table.  In the source the enabled-branch loop
calls `enable` on every route exactly when the device was previously
disabled, and the disabled-branch loop calls `disable` on every route
exactly when it was previously enabled; the call lists record that. -/
def MsiConfig.update (cfg : MsiConfig) (t : GsiTable) (offset : Nat) (data : List Nat) :
    UpdateResult :=
  let old_enabled := cfg.cap.enabled
  let cap := cfg.cap.update offset data
  if cap.enabled then
    { cfg := { cfg with cap := cap },
      table := installRoutes cap cfg.irq_routes 0 t,
      enableCalls := if old_enabled then [] else cfg.irq_routes,
      disableCalls := [] }
  else
    { cfg := { cfg with cap := cap },
      table := removeRoutes cfg.irq_routes t,
      enableCalls := [],
      disableCalls := if old_enabled then cfg.irq_routes else [] }

/-- The construction-time allocation loop of `MsiConfig::new`: try `n`
allocations from `alloc` (its argument is the index of the call, so `alloc`
stands for the successive answers of the `SystemAllocator`), returning the
allocated GSIs and the number of allocator calls made.  The first failing
allocation aborts construction — in the source it is an `unwrap` panic, so
no configuration value is produced. -/
def allocRoutes (alloc : Nat → Option Nat) : Nat → Nat → Option (List Nat) × Nat
  | _, 0 => (some [], 0)
  | start, n + 1 =>
    match alloc start with
    | none => (none, 1)
    | some gsi =>
      let rest := allocRoutes alloc (start + 1) n
      (Option.map (fun rs => gsi :: rs) rest.1, rest.2 + 1)

/-- Source constructor `MsiConfig::new`: build the register block from the initial control
value, then allocate one route per initially enabled vector.  The second
component counts the allocator calls; the first is `none` when an
allocation failed (the source panics there, creating no device). -/
def MsiConfig.new (msg_ctl : Nat) (alloc : Nat → Option Nat) : Option MsiConfig × Nat :=
  let cap := MsiCap.mkDefault msg_ctl
  let res := allocRoutes alloc 0 cap.num_enabled_vectors
  (Option.map (fun rs => MsiConfig.mk cap rs) res.1, res.2)

/-- The vector-count table exactly as the spec enumerates it: multi-message
encodings 0–5 give 1,2,4,8,16,32 vectors, the reserved encodings 6 and 7
give 0.  (Spec-side definition, compared against the source's
`num_enabled_vectors`.) -/
def specVectorCount (field : Nat) : Nat :=
  [1, 2, 4, 8, 16, 32, 0, 0].getD field 0

end Msi

namespace Msi

/-! ### Helper lemmas -/

theorem update_pending_bits (c : MsiCap) (off : Nat) (data : List Nat) :
    (c.update off data).pending_bits = c.pending_bits := by
  rcases data with _ | ⟨a, _ | ⟨b, _ | ⟨x, _ | ⟨d, _ | e⟩⟩⟩⟩ <;>
    simp only [MsiCap.update] <;> split_ifs <;> rfl

theorem applyWrites_pending_bits (c : MsiCap) (ws : List (Nat × List Nat)) :
    (applyWrites c ws).pending_bits = c.pending_bits := by
  induction ws generalizing c with
  | nil => rfl
  | cons w ws ih =>
    show (applyWrites (c.update w.1 w.2) ws).pending_bits = c.pending_bits
    rw [ih, update_pending_bits]

theorem update_msg_ctl_shape (c : MsiCap) (off : Nat) (data : List Nat) :
    (c.update off data).msg_ctl = c.msg_ctl ∨
      ∃ v, (c.update off data).msg_ctl = (c.msg_ctl &&& 0xff8e) ||| (v &&& 0x71) := by
  have hmask : (0xffff : Nat) ^^^ (MSI_CTL_ENABLE ||| MSI_CTL_MULTI_MSG_ENABLE) = 0xff8e := by
    decide
  have hw : MSI_CTL_ENABLE ||| MSI_CTL_MULTI_MSG_ENABLE = 0x71 := by decide
  rcases data with _ | ⟨a, _ | ⟨b, _ | ⟨x, _ | ⟨d, _ | e⟩⟩⟩⟩
  · exact Or.inl rfl
  · exact Or.inl rfl
  · simp only [MsiCap.update, hmask, hw]
    split_ifs <;> first | exact Or.inl rfl | exact Or.inr ⟨_, rfl⟩
  · exact Or.inl rfl
  · simp only [MsiCap.update, hmask, hw]
    split_ifs <;> first | exact Or.inl rfl | exact Or.inr ⟨_, rfl⟩
  · exact Or.inl rfl

theorem masked_or_absorb (x v : Nat) :
    ((x &&& 0xff8e) ||| (v &&& 0x71)) &&& 0xff8e = x &&& 0xff8e := by
  apply Nat.eq_of_testBit_eq
  intro i
  have hz : ((0xff8e : Nat) &&& 0x71) = 0 := by decide
  have hdisj : (Nat.testBit 0xff8e i && Nat.testBit 0x71 i) = false := by
    rw [← Nat.testBit_and, hz]
    exact Nat.zero_testBit i
  simp only [Nat.testBit_and, Nat.testBit_or]
  cases hm : Nat.testBit 0xff8e i
  · simp
  · rw [hm] at hdisj
    simp only [Bool.true_and] at hdisj
    simp [hdisj]

theorem update_msg_ctl_masked (c : MsiCap) (off : Nat) (data : List Nat) :
    (c.update off data).msg_ctl &&& 0xff8e = c.msg_ctl &&& 0xff8e := by
  rcases update_msg_ctl_shape c off data with h | ⟨v, h⟩
  · rw [h]
  · rw [h, masked_or_absorb]

theorem update_msg_ctl_lt (c : MsiCap) (off : Nat) (data : List Nat)
    (h : c.msg_ctl < 65536) : (c.update off data).msg_ctl < 65536 := by
  rcases update_msg_ctl_shape c off data with he | ⟨v, he⟩
  · rw [he]; exact h
  · rw [he]
    have h1 : c.msg_ctl &&& 0xff8e < 2 ^ 16 :=
      Nat.lt_of_le_of_lt Nat.and_le_right (by norm_num)
    have h2 : v &&& 0x71 < 2 ^ 16 :=
      Nat.lt_of_le_of_lt Nat.and_le_right (by norm_num)
    have := Nat.or_lt_two_pow h1 h2
    simpa using this

theorem applyWrites_msg_ctl_masked (c : MsiCap) (ws : List (Nat × List Nat)) :
    (applyWrites c ws).msg_ctl &&& 0xff8e = c.msg_ctl &&& 0xff8e := by
  induction ws generalizing c with
  | nil => rfl
  | cons w ws ih =>
    show (applyWrites (c.update w.1 w.2) ws).msg_ctl &&& 0xff8e = c.msg_ctl &&& 0xff8e
    rw [ih, update_msg_ctl_masked]

theorem applyWrites_msg_ctl_lt (c : MsiCap) (ws : List (Nat × List Nat))
    (h : c.msg_ctl < 65536) : (applyWrites c ws).msg_ctl < 65536 := by
  induction ws generalizing c with
  | nil => exact h
  | cons w ws ih =>
    show (applyWrites (c.update w.1 w.2) ws).msg_ctl < 65536
    exact ih _ (update_msg_ctl_lt c w.1 w.2 h)

/-! ### Claim theorems (first group) -/

/-- C5: `num_enabled_vectors` maps the 3-bit multi-message-enable field
(control bits 4-6) through the table 1,2,4,8,16,32 for encodings 0–5 and
yields 0 for the reserved encodings 6 and 7 — never clamped to 32. -/
theorem num_enabled_vectors_matches_spec_table (c : MsiCap) :
    c.num_enabled_vectors = specVectorCount ((c.msg_ctl >>> 4) &&& 0x7) := by
  have h : ∀ f < 8, (if f > 5 then 0 else 1 <<< f) = specVectorCount f := by decide
  exact h _ (Nat.lt_succ_of_le Nat.and_le_right)

/-- C8: `size` is 10 bytes for (32-bit, no mask), 14 for (64-bit, no mask),
20 for (32-bit, mask) and 24 for (64-bit, mask): base 10, plus 4 when
64-bit-address-capable, plus 10 when per-vector-mask-capable. -/
theorem size_matches_capability_flags (c : MsiCap) :
    c.size = if c.addr_64_bits then (if c.per_vector_mask then 24 else 14)
             else (if c.per_vector_mask then 20 else 10) := by
  cases h1 : c.addr_64_bits <;> cases h2 : c.per_vector_mask <;>
    simp [MsiCap.size, h1, h2]

/-- C10: no case of `update` writes `pending_bits`, so after any sequence of
guest writes it still holds its construction-time value, zero. -/
theorem pending_bits_never_modified :
    (∀ (c : MsiCap) (off : Nat) (data : List Nat),
        (c.update off data).pending_bits = c.pending_bits) ∧
    (∀ (ctl : Nat) (ws : List (Nat × List Nat)),
        (applyWrites (MsiCap.mkDefault ctl) ws).pending_bits = 0) :=
  ⟨update_pending_bits, fun ctl ws => by rw [applyWrites_pending_bits]; rfl⟩

end Msi

namespace Msi

/-- C4: across any sequence of guest writes, every bit of `control` other
than enable (bit 0) and multi-message-enable (bits 4-6) — in particular the
multi-message-capable bits 1-3, the 64-bit-address bit 7, the
per-vector-mask bit 8, and all reserved bits — keeps its construction-time
value. -/
theorem control_readonly_bits_preserved (c : MsiCap) (ws : List (Nat × List Nat))
    (hctl : c.msg_ctl < 65536) (i : Nat)
    (h0 : i ≠ 0) (h4 : i ≠ 4) (h5 : i ≠ 5) (h6 : i ≠ 6) :
    (applyWrites c ws).msg_ctl.testBit i = c.msg_ctl.testBit i := by
  by_cases hi : i < 16
  · have hmask : Nat.testBit 0xff8e i = true := by
      interval_cases i <;>
        first
          | exact absurd rfl h0
          | exact absurd rfl h4
          | exact absurd rfl h5
          | exact absurd rfl h6
          | decide
    have hm := applyWrites_msg_ctl_masked c ws
    have hbit := congrArg (fun x => x.testBit i) hm
    simpa [Nat.testBit_and, hmask] using hbit
  · have hge : 16 ≤ i := Nat.le_of_not_lt hi
    have hpow : (65536 : Nat) ≤ 2 ^ i := by
      calc (65536 : Nat) = 2 ^ 16 := by norm_num
      _ ≤ 2 ^ i := Nat.pow_le_pow_right (by norm_num) hge
    have h1 : (applyWrites c ws).msg_ctl.testBit i = false :=
      Nat.testBit_lt_two_pow
        (Nat.lt_of_lt_of_le (applyWrites_msg_ctl_lt c ws hctl) hpow)
    have h2 : c.msg_ctl.testBit i = false :=
      Nat.testBit_lt_two_pow (Nat.lt_of_lt_of_le hctl hpow)
    rw [h1, h2]

/-- Witness for C4 at a concrete device and write sequence. -/
theorem control_readonly_bits_preserved_witness :
    (applyWrites (MsiCap.mkDefault 0x18e) [(2, [255, 255])]).msg_ctl.testBit 7
      = (MsiCap.mkDefault 0x18e).msg_ctl.testBit 7 :=
  control_readonly_bits_preserved (MsiCap.mkDefault 0x18e) [(2, [255, 255])]
    (by decide) 7 (by decide) (by decide) (by decide) (by decide)

/-- C7: a guest write whose byte length is neither 2 nor 4, or whose
(offset, length) pair matches no register of the current layout, leaves the
whole register block unchanged. -/
theorem invalid_access_leaves_block_unchanged (cap : MsiCap) (off : Nat) (data : List Nat)
    (h : validAccess cap off data.length = false) : cap.update off data = cap := by
  rcases data with _ | ⟨a, _ | ⟨b, _ | ⟨x, _ | ⟨d, _ | e⟩⟩⟩⟩
  · rfl
  · rfl
  · simp only [validAccess, List.length_cons, List.length_nil] at h
    simp only [MsiCap.update]
    rw [if_neg, if_neg]
    · intro heq
      simp [MSI_MSG_CTL_OFFSET, heq] at h
    · intro heq
      simp [MSI_MSG_CTL_OFFSET, heq] at h
  · rfl
  · cases h64 : cap.addr_64_bits <;> cases hpv : cap.per_vector_mask <;>
      simp [validAccess, h64, hpv, MSI_MSG_ADDR_LO_OFFSET] at h
    · obtain ⟨⟨q1, q2⟩, q3⟩ := h
      simp [MsiCap.update, h64, hpv, MSI_MSG_ADDR_LO_OFFSET, q1, q2, q3,
            Ne.symm q1, Ne.symm q2, Ne.symm q3]
    · obtain ⟨⟨⟨q1, q2⟩, q3⟩, q4⟩ := h
      simp [MsiCap.update, h64, hpv, MSI_MSG_ADDR_LO_OFFSET, q1, q2, q3, q4,
            Ne.symm q1, Ne.symm q2, Ne.symm q3, Ne.symm q4]
    · obtain ⟨⟨⟨q1, q2⟩, q3⟩, q4⟩ := h
      simp [MsiCap.update, h64, hpv, MSI_MSG_ADDR_LO_OFFSET, q1, q2, q3, q4,
            Ne.symm q1, Ne.symm q2, Ne.symm q3, Ne.symm q4]
    · obtain ⟨⟨⟨⟨q1, q2⟩, q3⟩, q4⟩, q5⟩ := h
      simp [MsiCap.update, h64, hpv, MSI_MSG_ADDR_LO_OFFSET, q1, q2, q3, q4, q5,
            Ne.symm q1, Ne.symm q2, Ne.symm q3, Ne.symm q4, Ne.symm q5]
  · rfl

/-- Witness for C7: a 2-byte write at the unrecognized offset 6 changes
nothing. -/
theorem invalid_access_leaves_block_unchanged_witness :
    (MsiCap.mkDefault 0x18e).update 6 [1, 2] = MsiCap.mkDefault 0x18e :=
  invalid_access_leaves_block_unchanged (MsiCap.mkDefault 0x18e) 6 [1, 2] (by decide)

end Msi

namespace Msi

/-! ### Routing-table loop lemmas -/

theorem installRoutes_not_mem (cap : MsiCap) :
    ∀ (routes : List Nat) (idx : Nat) (t : GsiTable) (g : Nat), g ∉ routes →
      installRoutes cap routes idx t g = t g := by
  intro routes
  induction routes with
  | nil => intro idx t g _; rfl
  | cons gsi rest ih =>
    intro idx t g hg
    have hne : g ≠ gsi := fun he => hg (by simp [he])
    have hrest : g ∉ rest := fun hm => hg (List.mem_cons_of_mem _ hm)
    show installRoutes cap rest (idx + 1) _ g = t g
    rw [ih (idx + 1) _ g hrest]
    by_cases hm : cap.vector_masked idx
    · simp [hm]
    · simp [hm, tableInsert, hne]

theorem installRoutes_get_unmasked (cap : MsiCap) :
    ∀ (routes : List Nat) (idx : Nat) (t : GsiTable), routes.Nodup →
      ∀ i, (hi : i < routes.length) → cap.vector_masked (idx + i) = false →
        installRoutes cap routes idx t routes[i] =
          some (routeEntry cap routes[i] (idx + i)) := by
  intro routes
  induction routes with
  | nil => intro idx t _ i hi; exact absurd hi (by simp)
  | cons gsi rest ih =>
    intro idx t hnd i hi hm
    obtain ⟨hgs, hndr⟩ := List.nodup_cons.mp hnd
    rcases i with _ | i
    · have hm0 : cap.vector_masked idx = false := by simpa using hm
      show installRoutes cap rest (idx + 1) _ gsi = _
      rw [installRoutes_not_mem cap rest (idx + 1) _ gsi hgs]
      simp [hm0, tableInsert, routeEntry]
    · have hi' : i < rest.length := by simpa using Nat.lt_of_succ_lt_succ hi
      have hm' : cap.vector_masked (idx + 1 + i) = false := by
        rwa [show idx + 1 + i = idx + (i + 1) by omega]
      show installRoutes cap rest (idx + 1) _ (gsi :: rest)[i + 1] = _
      have hcons : (gsi :: rest)[i + 1] = rest[i] := by simp
      rw [hcons, ih (idx + 1) _ hndr i hi' hm']
      rw [show idx + 1 + i = idx + (i + 1) by omega]

theorem installRoutes_get_masked (cap : MsiCap) :
    ∀ (routes : List Nat) (idx : Nat) (t : GsiTable), routes.Nodup →
      ∀ i, (hi : i < routes.length) → cap.vector_masked (idx + i) = true →
        installRoutes cap routes idx t routes[i] = t routes[i] := by
  intro routes
  induction routes with
  | nil => intro idx t _ i hi; exact absurd hi (by simp)
  | cons gsi rest ih =>
    intro idx t hnd i hi hm
    obtain ⟨hgs, hndr⟩ := List.nodup_cons.mp hnd
    rcases i with _ | i
    · have hm0 : cap.vector_masked idx = true := by simpa using hm
      show installRoutes cap rest (idx + 1) _ gsi = _
      rw [installRoutes_not_mem cap rest (idx + 1) _ gsi hgs]
      simp [hm0]
    · have hi' : i < rest.length := by simpa using Nat.lt_of_succ_lt_succ hi
      have hm' : cap.vector_masked (idx + 1 + i) = true := by
        rwa [show idx + 1 + i = idx + (i + 1) by omega]
      have hmem : rest[i] ∈ rest := List.getElem_mem hi'
      have hne : rest[i] ≠ gsi := fun he => hgs (he ▸ hmem)
      show installRoutes cap rest (idx + 1) _ (gsi :: rest)[i + 1] = _
      have hcons : (gsi :: rest)[i + 1] = rest[i] := by simp
      rw [hcons, ih (idx + 1) _ hndr i hi' hm']
      by_cases hmaskhead : cap.vector_masked idx
      · simp [hmaskhead]
      · simp [hmaskhead, tableInsert, hne]

theorem installRoutes_frame (cap : MsiCap) :
    ∀ (routes : List Nat) (idx : Nat) (t : GsiTable) (g : Nat),
      (∀ i, (hi : i < routes.length) → cap.vector_masked (idx + i) = false →
        routes[i] ≠ g) →
      installRoutes cap routes idx t g = t g := by
  intro routes
  induction routes with
  | nil => intro idx t g _; rfl
  | cons gsi rest ih =>
    intro idx t g h
    show installRoutes cap rest (idx + 1) _ g = t g
    rw [ih (idx + 1) _ g ?_]
    · by_cases hm : cap.vector_masked idx
      · simp [hm]
      · have hne : gsi ≠ g := h 0 (by simp) (by simpa using hm)
        simp [hm, tableInsert, Ne.symm hne]
    · intro i hi hmi
      have := h (i + 1) (by simpa using Nat.succ_lt_succ hi)
        (by rwa [show idx + (i + 1) = idx + 1 + i by omega])
      simpa using this

theorem removeRoutes_apply :
    ∀ (routes : List Nat) (t : GsiTable) (g : Nat),
      removeRoutes routes t g = if g ∈ routes then none else t g := by
  intro routes
  induction routes with
  | nil => intro t g; simp [removeRoutes]
  | cons gsi rest ih =>
    intro t g
    show removeRoutes rest _ g = _
    rw [ih]
    by_cases hmem : g ∈ rest
    · simp [hmem]
    · by_cases hgsi : g = gsi
      · simp [hmem, hgsi, tableRemove]
      · simp [hmem, hgsi, tableRemove]

theorem update_table_enabled (cfg : MsiConfig) (t : GsiTable) (off : Nat) (data : List Nat)
    (hen : (cfg.cap.update off data).enabled = true) :
    (cfg.update t off data).table =
      installRoutes (cfg.cap.update off data) cfg.irq_routes 0 t := by
  simp [MsiConfig.update, hen]

end Msi

namespace Msi

/-- C1: when a guest write leaves the device enabled, the update installs
one routing-table entry per unmasked vector — vector `i`'s entry is keyed
by the GSI of the `i`-th owned route and carries type MSI, address
`(address_low, address_high)` and payload `data ||| i` — and writes nothing
else: every GSI that is not an unmasked route's GSI keeps its previous
mapping. -/
theorem enabled_update_installs_one_entry_per_unmasked_vector
    (cfg : MsiConfig) (t : GsiTable) (off : Nat) (data : List Nat)
    (hnd : cfg.irq_routes.Nodup)
    (hen : (cfg.update t off data).cfg.cap.enabled = true) :
    (∀ i, (hi : i < cfg.irq_routes.length) →
        (cfg.cap.update off data).vector_masked i = false →
        (cfg.update t off data).table cfg.irq_routes[i] =
          some (routeEntry (cfg.cap.update off data) cfg.irq_routes[i] i)) ∧
    (∀ g, (∀ i, (hi : i < cfg.irq_routes.length) →
          (cfg.cap.update off data).vector_masked i = false →
          cfg.irq_routes[i] ≠ g) →
        (cfg.update t off data).table g = t g) := by
  have hcap : (cfg.update t off data).cfg.cap = cfg.cap.update off data := by
    by_cases he : (cfg.cap.update off data).enabled <;> simp [MsiConfig.update, he]
  have hen' : (cfg.cap.update off data).enabled = true := by
    rw [← hcap]; exact hen
  rw [update_table_enabled cfg t off data hen']
  constructor
  · intro i hi hm
    have := installRoutes_get_unmasked (cfg.cap.update off data) cfg.irq_routes 0 t hnd
      i hi (by simpa using hm)
    simpa using this
  · intro g hg
    exact installRoutes_frame (cfg.cap.update off data) cfg.irq_routes 0 t g
      (fun i hi hm => hg i hi (by simpa using hm))

/-- Witness for C1: a one-vector device enabled by a control write gets
exactly its own entry, and an unrelated GSI is untouched. -/
theorem enabled_update_installs_one_entry_per_unmasked_vector_witness :
    ((⟨MsiCap.mkDefault 0, [4]⟩ : MsiConfig).update (fun _ => none) 2 [1, 0]).table 4 =
        some (routeEntry ((MsiCap.mkDefault 0).update 2 [1, 0]) 4 0) ∧
      ((⟨MsiCap.mkDefault 0, [4]⟩ : MsiConfig).update (fun _ => none) 2 [1, 0]).table 9 = none := by
  have h := enabled_update_installs_one_entry_per_unmasked_vector
    ⟨MsiCap.mkDefault 0, [4]⟩ (fun _ => none) 2 [1, 0] (by decide) (by decide)
  exact ⟨h.1 0 (by decide) (by decide), h.2 9 (by decide)⟩

/-- C6: while the device stays enabled, an update neither installs nor
refreshes the entry of a masked vector — its GSI keeps whatever mapping the
table already had, stale or absent — while every unmasked vector's entry is
freshly (re)installed in the same call. -/
theorem enabled_update_skips_masked_vectors
    (cfg : MsiConfig) (t : GsiTable) (off : Nat) (data : List Nat)
    (hnd : cfg.irq_routes.Nodup)
    (hen : (cfg.cap.update off data).enabled = true) :
    ∀ i, (hi : i < cfg.irq_routes.length) →
      ((cfg.cap.update off data).vector_masked i = true →
        (cfg.update t off data).table cfg.irq_routes[i] = t cfg.irq_routes[i]) ∧
      ((cfg.cap.update off data).vector_masked i = false →
        (cfg.update t off data).table cfg.irq_routes[i] =
          some (routeEntry (cfg.cap.update off data) cfg.irq_routes[i] i)) := by
  intro i hi
  rw [update_table_enabled cfg t off data hen]
  constructor
  · intro hm
    have := installRoutes_get_masked (cfg.cap.update off data) cfg.irq_routes 0 t hnd
      i hi (by simpa using hm)
    simpa using this
  · intro hm
    have := installRoutes_get_unmasked (cfg.cap.update off data) cfg.irq_routes 0 t hnd
      i hi (by simpa using hm)
    simpa using this

/-- Witness for C6: with vector 0 masked and vector 1 unmasked on an
enabled two-vector device, a write keeps vector 0's stale table state and
refreshes vector 1's entry. -/
theorem enabled_update_skips_masked_vectors_witness :
    (((⟨⟨0x111, 0, 0, 0, 1, 0⟩, [4, 9]⟩ : MsiConfig).update (fun _ => none) 8 [7, 0]).table 4
        = none) ∧
      (((⟨⟨0x111, 0, 0, 0, 1, 0⟩, [4, 9]⟩ : MsiConfig).update (fun _ => none) 8 [7, 0]).table 9
        = some (routeEntry ((⟨0x111, 0, 0, 0, 1, 0⟩ : MsiCap).update 8 [7, 0]) 9 1)) := by
  have h0 := enabled_update_skips_masked_vectors
    ⟨⟨0x111, 0, 0, 0, 1, 0⟩, [4, 9]⟩ (fun _ => none) 8 [7, 0] (by decide) (by decide)
    0 (by decide)
  have h1 := enabled_update_skips_masked_vectors
    ⟨⟨0x111, 0, 0, 0, 1, 0⟩, [4, 9]⟩ (fun _ => none) 8 [7, 0] (by decide) (by decide)
    1 (by decide)
  exact ⟨h0.1 (by decide), h1.2 (by decide)⟩

/-- C3: when a guest write leaves the device disabled, the hypervisor
`disable` operation is invoked exactly once per owned route precisely when
the device was enabled before the call, and every owned route's GSI entry
is removed from the shared table unconditionally. -/
theorem disabled_update_removes_routes
    (cfg : MsiConfig) (t : GsiTable) (off : Nat) (data : List Nat)
    (hdis : (cfg.cap.update off data).enabled = false) :
    ((cfg.update t off data).disableCalls =
        if cfg.cap.enabled then cfg.irq_routes else []) ∧
    (∀ g, g ∈ cfg.irq_routes → (cfg.update t off data).table g = none) := by
  constructor
  · simp [MsiConfig.update, hdis]
  · intro g hg
    have htab : (cfg.update t off data).table = removeRoutes cfg.irq_routes t := by
      simp [MsiConfig.update, hdis]
    rw [htab, removeRoutes_apply, if_pos hg]

/-- Witness for C3: disabling a previously enabled one-route device calls
`disable` on its route and removes its GSI from the table. -/
theorem disabled_update_removes_routes_witness :
    (((⟨MsiCap.mkDefault 1, [7]⟩ : MsiConfig).update
        (fun g => if g = 7 then some (routeEntry (MsiCap.mkDefault 1) 7 0) else none)
        2 [0, 0]).disableCalls = [7]) ∧
      (((⟨MsiCap.mkDefault 1, [7]⟩ : MsiConfig).update
        (fun g => if g = 7 then some (routeEntry (MsiCap.mkDefault 1) 7 0) else none)
        2 [0, 0]).table 7 = none) := by
  have h := disabled_update_removes_routes ⟨MsiCap.mkDefault 1, [7]⟩
    (fun g => if g = 7 then some (routeEntry (MsiCap.mkDefault 1) 7 0) else none)
    2 [0, 0] (by decide)
  refine ⟨?_, h.2 7 (by decide)⟩
  rw [h.1]
  decide

end Msi

namespace Msi

/-- A 4-byte write at the mask-bits offset of a per-vector-mask-capable
device replaces `mask_bits` and touches nothing else. -/
theorem update_mask_write (cap : MsiCap) (a b c d : Nat)
    (hpv : cap.per_vector_mask = true) :
    cap.update (if cap.addr_64_bits then 0x10 else 0xc) [a, b, c, d] =
      { cap with mask_bits := read_u32 a b c d } := by
  cases h64 : cap.addr_64_bits <;>
    simp [MsiCap.update, hpv, h64, MSI_MSG_ADDR_LO_OFFSET]

/-- Counterexample to C2 as stated: a per-vector-mask-capable one-vector
device is enabled (installing its entry at GSI 5), then the guest masks
vector 0 by writing 1 to mask_bits; after that update the device is still
enabled and vector 0 is masked, yet its entry is still present in the
table — not absent as the claim requires. -/
theorem masked_vector_entry_still_present :
    let cfg0 : MsiConfig := ⟨MsiCap.mkDefault 0x100, [5]⟩
    let r1 := cfg0.update (fun _ => none) 0x2 [0x01, 0x01]
    let r2 := r1.cfg.update r1.table 0xc [1, 0, 0, 0]
    r2.cfg.cap.enabled = true ∧ r2.cfg.cap.vector_masked 0 = true ∧
      r2.table 5 ≠ none := by
  decide

/-- C2 amended: masking vector `i` (by a guest write to mask_bits) while
the device remains enabled causes vector `i`'s entry to be left exactly as
it was — a pre-existing (stale) entry stays in the table and is not
refreshed — after the update that applies the write, while every other
unmasked vector's entry is (re)installed as usual. -/
theorem mask_write_skips_vector_entry
    (cfg : MsiConfig) (t : GsiTable) (a b c d : Nat)
    (hnd : cfg.irq_routes.Nodup)
    (hen : cfg.cap.enabled = true)
    (hpv : cfg.cap.per_vector_mask = true) :
    (cfg.update t (if cfg.cap.addr_64_bits then 0x10 else 0xc) [a, b, c, d]).cfg.cap.enabled
        = true ∧
    ∀ i, (hi : i < cfg.irq_routes.length) →
      (((read_u32 a b c d) >>> i) &&& 0x1 = 0x1 →
        (cfg.update t (if cfg.cap.addr_64_bits then 0x10 else 0xc) [a, b, c, d]).table
            cfg.irq_routes[i] = t cfg.irq_routes[i]) ∧
      (((read_u32 a b c d) >>> i) &&& 0x1 ≠ 0x1 →
        (cfg.update t (if cfg.cap.addr_64_bits then 0x10 else 0xc) [a, b, c, d]).table
            cfg.irq_routes[i] =
          some (routeEntry { cfg.cap with mask_bits := read_u32 a b c d }
            cfg.irq_routes[i] i)) := by
  have hcap : cfg.cap.update (if cfg.cap.addr_64_bits then 0x10 else 0xc) [a, b, c, d] =
      { cfg.cap with mask_bits := read_u32 a b c d } :=
    update_mask_write cfg.cap a b c d hpv
  have hen' : (cfg.cap.update (if cfg.cap.addr_64_bits then 0x10 else 0xc)
      [a, b, c, d]).enabled = true := by
    rw [hcap]; simpa [MsiCap.enabled] using hen
  have hpv' : ({ cfg.cap with mask_bits := read_u32 a b c d } : MsiCap).per_vector_mask
      = true := by
    simpa [MsiCap.per_vector_mask] using hpv
  constructor
  · have hc : (cfg.update t (if cfg.cap.addr_64_bits then 0x10 else 0xc)
        [a, b, c, d]).cfg.cap =
        cfg.cap.update (if cfg.cap.addr_64_bits then 0x10 else 0xc) [a, b, c, d] := by
      simp [MsiConfig.update, hen']
    rw [hc]; exact hen'
  · intro i hi
    have hmask : ∀ j, ({ cfg.cap with mask_bits := read_u32 a b c d } : MsiCap).vector_masked j
        = (((read_u32 a b c d) >>> j) &&& 0x1 == 0x1) := by
      intro j
      simp [MsiCap.vector_masked, hpv']
    rw [update_table_enabled cfg t _ _ hen']
    rw [hcap]
    constructor
    · intro hm
      have := installRoutes_get_masked { cfg.cap with mask_bits := read_u32 a b c d }
        cfg.irq_routes 0 t hnd i hi (by simp [hmask, hm])
      simpa using this
    · intro hm
      have := installRoutes_get_unmasked { cfg.cap with mask_bits := read_u32 a b c d }
        cfg.irq_routes 0 t hnd i hi (by simp [hmask]; simpa using hm)
      simpa using this

/-- Witness for the amended C2: on an enabled two-vector device, masking
vector 0 leaves its stale table state (absent here) untouched and
reinstalls vector 1's entry. -/
theorem mask_write_skips_vector_entry_witness :
    (((⟨⟨0x111, 0, 0, 0, 0, 0⟩, [4, 9]⟩ : MsiConfig).update (fun _ => none)
        (if (⟨0x111, 0, 0, 0, 0, 0⟩ : MsiCap).addr_64_bits then 0x10 else 0xc)
        [1, 0, 0, 0]).table 4 = none) ∧
      (((⟨⟨0x111, 0, 0, 0, 0, 0⟩, [4, 9]⟩ : MsiConfig).update (fun _ => none)
        (if (⟨0x111, 0, 0, 0, 0, 0⟩ : MsiCap).addr_64_bits then 0x10 else 0xc)
        [1, 0, 0, 0]).table 9 =
          some (routeEntry { (⟨0x111, 0, 0, 0, 0, 0⟩ : MsiCap) with
            mask_bits := read_u32 1 0 0 0 } 9 1)) := by
  have h := mask_write_skips_vector_entry ⟨⟨0x111, 0, 0, 0, 0, 0⟩, [4, 9]⟩
    (fun _ => none) 1 0 0 0 (by decide) (by decide) (by decide)
  exact ⟨(h.2 0 (by decide)).1 (by decide), (h.2 1 (by decide)).2 (by decide)⟩

end Msi

namespace Msi

theorem allocRoutes_success (alloc : Nat → Option Nat) :
    ∀ (n start : Nat), (∀ k, k < n → (alloc (start + k)).isSome = true) →
      ∃ rs, allocRoutes alloc start n = (some rs, n) ∧ rs.length = n := by
  intro n
  induction n with
  | zero => intro start _; exact ⟨[], rfl, rfl⟩
  | succ n ih =>
    intro start h
    have h0 : (alloc start).isSome = true := by
      have := h 0 (Nat.succ_pos n)
      simpa using this
    obtain ⟨g, hg⟩ := Option.isSome_iff_exists.mp h0
    obtain ⟨rs, hrs, hlen⟩ := ih (start + 1) (fun k hk => by
      have := h (k + 1) (Nat.succ_lt_succ hk)
      rwa [show start + (k + 1) = start + 1 + k by omega] at this)
    refine ⟨g :: rs, ?_, by simp [hlen]⟩
    simp [allocRoutes, hg, hrs]

theorem allocRoutes_failure (alloc : Nat → Option Nat) :
    ∀ (n start : Nat), (∃ k, k < n ∧ alloc (start + k) = none) →
      (allocRoutes alloc start n).1 = none := by
  intro n
  induction n with
  | zero => intro start h; obtain ⟨k, hk, _⟩ := h; omega
  | succ n ih =>
    intro start h
    cases hg : alloc start with
    | none => simp [allocRoutes, hg]
    | some g =>
      obtain ⟨k, hk, hnone⟩ := h
      rcases k with _ | k
      · rw [Nat.add_zero] at hnone
        rw [hnone] at hg
        cases hg
      · have hrec : (allocRoutes alloc (start + 1) n).1 = none :=
          ih (start + 1) ⟨k, by omega,
            by rwa [show start + 1 + k = start + (k + 1) by omega]⟩
        simp [allocRoutes, hg, hrec]

/-- C9: `MsiConfig::new` calls the route allocator exactly
`num_enabled_vectors` times (computed from the initial control value) when
every allocation succeeds, producing a device whose route list has exactly
that length; if any of those allocations fails, no device is produced at
all — there is no partially constructed manager. -/
theorem new_calls_allocator_exactly_vector_count_times
    (ctl : Nat) (alloc : Nat → Option Nat) :
    ((∀ k, k < (MsiCap.mkDefault ctl).num_enabled_vectors → (alloc k).isSome = true) →
      (MsiConfig.new ctl alloc).2 = (MsiCap.mkDefault ctl).num_enabled_vectors ∧
      ∃ cfg, (MsiConfig.new ctl alloc).1 = some cfg ∧
        cfg.cap = MsiCap.mkDefault ctl ∧
        cfg.irq_routes.length = (MsiCap.mkDefault ctl).num_enabled_vectors) ∧
    ((∃ k, k < (MsiCap.mkDefault ctl).num_enabled_vectors ∧ alloc k = none) →
      (MsiConfig.new ctl alloc).1 = none) := by
  constructor
  · intro h
    obtain ⟨rs, hrs, hlen⟩ := allocRoutes_success alloc
      (MsiCap.mkDefault ctl).num_enabled_vectors 0 (fun k hk => by
        have := h k hk
        simpa using this)
    refine ⟨by simp [MsiConfig.new, hrs], ⟨MsiConfig.mk (MsiCap.mkDefault ctl) rs, ?_, rfl, hlen⟩⟩
    simp [MsiConfig.new, hrs]
  · intro h
    obtain ⟨k, hk, hnone⟩ := h
    have := allocRoutes_failure alloc (MsiCap.mkDefault ctl).num_enabled_vectors 0
      ⟨k, hk, by simpa using hnone⟩
    simp [MsiConfig.new, this]

/-- Witness for C9: with one initially enabled vector, a succeeding
allocator is called exactly once and a device is produced; an exhausted
allocator produces no device. -/
theorem new_calls_allocator_exactly_vector_count_times_witness :
    ((MsiConfig.new 0 (fun k => some (k + 3))).2 = 1 ∧
      ((MsiConfig.new 0 (fun k => some (k + 3))).1).isSome = true) ∧
    (MsiConfig.new 0 (fun _ => none)).1 = none := by
  have hsucc := (new_calls_allocator_exactly_vector_count_times 0
    (fun k => some (k + 3))).1 (by intro k _; simp)
  have hfail := (new_calls_allocator_exactly_vector_count_times 0
    (fun _ => none)).2 ⟨0, by decide, rfl⟩
  obtain ⟨hcalls, cfg, hcfg, _, _⟩ := hsucc
  exact ⟨⟨hcalls, by simp [hcfg]⟩, hfail⟩

end Msi
